import Mathlib

/-!
Verification of the AI-Lead-Quality-Engine core (backend/server.py):
the rule-based lead scorer `calculate_lead_score`, the two-tier parser and
template fallback of `generate_ai_messages`, and the dashboard aggregation
`get_dashboard_stats`.  Python strings are modelled as `List Char` and the
relevant `str` methods (`strip`, `split`, `replace`, `startswith`, `in`)
are given explicit executable definitions with CPython's semantics.
-/

namespace LeadEngine

/-! ## Definitions: the embedded program and its configuration -/

/-- Python strings, modelled as lists of characters. -/
abbrev Str := List Char

/-- The characters Python's `str.strip()` removes (ASCII whitespace). -/
def pyIsSpace (c : Char) : Bool :=
  c = ' ' || c = '\t' || c = '\n' || c = '\r' || c = '\x0b' || c = '\x0c'

/-- `s.rstrip()`: trailing whitespace removed. -/
def rstripL (s : Str) : Str :=
  (s.reverse.dropWhile pyIsSpace).reverse

/-- `s.strip()`: leading and trailing whitespace removed. -/
def pyStrip (s : Str) : Str :=
  rstripL (s.dropWhile pyIsSpace)

/-- `s.startswith(pat)`. -/
def startsWithL : Str → Str → Bool
  | _, [] => true
  | [], _ :: _ => false
  | c :: s, p :: ps => c = p && startsWithL s ps

/-- `pat in s` (Python substring containment). -/
def containsL (s pat : Str) : Bool :=
  match s with
  | [] => startsWithL [] pat
  | _ :: rest => startsWithL s pat || containsL rest pat

/-- Helper for `pySplit`: prepend a character to the first piece. -/
def consHead (c : Char) : List Str → List Str
  | [] => [[c]]
  | p :: ps => (c :: p) :: ps

/-- `s.split(sep)`, structurally recursive on a fuel argument; the string's
length is always enough fuel, see `pySplit_cons`. -/
def pySplitF (sep : Str) : Nat → Str → List Str
  | _, [] => [[]]
  | 0, c :: rest => [c :: rest]
  | fuel + 1, c :: rest =>
    if sep ≠ [] ∧ startsWithL (c :: rest) sep = true then
      [] :: pySplitF sep fuel ((c :: rest).drop sep.length)
    else
      consHead c (pySplitF sep fuel rest)

/-- `s.split(sep)` for a non-empty separator: cut at each leftmost,
non-overlapping occurrence of `sep`. -/
def pySplit (sep s : Str) : List Str := pySplitF sep s.length s

/-- `s.replace(pat, rep)`, structurally recursive on a fuel argument; the
string's length is always enough fuel, see `pyReplace_cons`. -/
def pyReplaceF (pat rep : Str) : Nat → Str → Str
  | _, [] => []
  | 0, c :: rest => c :: rest
  | fuel + 1, c :: rest =>
    if pat ≠ [] ∧ startsWithL (c :: rest) pat = true then
      rep ++ pyReplaceF pat rep fuel ((c :: rest).drop pat.length)
    else
      c :: pyReplaceF pat rep fuel rest

/-- `s.replace(pat, rep)` for a non-empty pattern: every leftmost,
non-overlapping occurrence of `pat` replaced by `rep`. -/
def pyReplace (s pat rep : Str) : Str := pyReplaceF pat rep s.length s

/-- `sep.join(pieces)`. -/
def intercalateL (sep : Str) : List Str → Str
  | [] => []
  | [x] => x
  | x :: y :: rest => x ++ sep ++ intercalateL sep (y :: rest)

/-- The time-of-day component of a Python `datetime`. -/
structure PyTime where
  hour : Nat
  minute : Nat
  second : Nat
  microsecond : Nat
deriving DecidableEq

/-- A Python `datetime` value (timezone discarded, as `.time()` and `.hour`
ignore it). -/
structure PyDateTime where
  year : Nat
  month : Nat
  day : Nat
  time : PyTime
deriving DecidableEq

/-- Comparison of `datetime.time` values (lexicographic on the four fields). -/
def timeLe (a b : PyTime) : Bool :=
  a.hour < b.hour ||
    (a.hour = b.hour && (a.minute < b.minute ||
      (a.minute = b.minute && (a.second < b.second ||
        (a.second = b.second && a.microsecond ≤ b.microsecond)))))

/-- Digits-only string to number; `none` on a non-digit. -/
def readDigitsAux : Str → Nat → Option Nat
  | [], acc => some acc
  | c :: rest, acc =>
    if c.isDigit then readDigitsAux rest (acc * 10 + (c.toNat - 48)) else none

/-- A non-empty all-digit string read as a number. -/
def readDigits (s : Str) : Option Nat :=
  match s with
  | [] => none
  | _ :: _ => readDigitsAux s 0

/-- Days per month, with the Gregorian leap-year rule. -/
def daysInMonth (y m : Nat) : Nat :=
  if m = 2 then (if (y % 4 = 0 ∧ y % 100 ≠ 0) ∨ y % 400 = 0 then 29 else 28)
  else if m = 4 ∨ m = 6 ∨ m = 9 ∨ m = 11 then 30 else 31

/-- The `YYYY-MM-DD` date part of an ISO-8601 string. -/
def parseIsoDate : Str → Option (Nat × Nat × Nat)
  | [y1, y2, y3, y4, s1, m1, m2, s2, d1, d2] =>
    if s1 = '-' ∧ s2 = '-' then
      match readDigits [y1, y2, y3, y4], readDigits [m1, m2], readDigits [d1, d2] with
      | some y, some m, some d =>
        if 1 ≤ y ∧ 1 ≤ m ∧ m ≤ 12 ∧ 1 ≤ d ∧ d ≤ daysInMonth y m then
          some (y, m, d)
        else none
      | _, _, _ => none
    else none
  | _ => none

/-- A valid time from components (`datetime.time` range checks). -/
def mkTime (h m s us : Nat) : Option PyTime :=
  if h ≤ 23 ∧ m ≤ 59 ∧ s ≤ 59 ∧ us ≤ 999999 then some ⟨h, m, s, us⟩ else none

/-- The `HH[:MM[:SS[.ffffff]]]` part of an ISO-8601 time string. -/
def parseHMS (s : Str) : Option PyTime :=
  match s with
  | [a, b] =>
    match readDigits [a, b] with
    | some h => mkTime h 0 0 0
    | none => none
  | [a, b, c1, m1, m2] =>
    if c1 = ':' then
      match readDigits [a, b], readDigits [m1, m2] with
      | some h, some m => mkTime h m 0 0
      | _, _ => none
    else none
  | [a, b, c1, m1, m2, c2, s1, s2] =>
    if c1 = ':' ∧ c2 = ':' then
      match readDigits [a, b], readDigits [m1, m2], readDigits [s1, s2] with
      | some h, some m, some sec => mkTime h m sec 0
      | _, _, _ => none
    else none
  | a :: b :: c1 :: m1 :: m2 :: c2 :: s1 :: s2 :: c3 :: frac =>
    if c1 = ':' ∧ c2 = ':' ∧ c3 = '.' ∧ 1 ≤ frac.length ∧ frac.length ≤ 6 then
      match readDigits [a, b], readDigits [m1, m2], readDigits [s1, s2], readDigits frac with
      | some h, some m, some sec, some f =>
        mkTime h m sec (f * 10 ^ (6 - frac.length))
      | _, _, _, _ => none
    else none
  | _ => none

/-- Index of the first occurrence of a character. -/
def idxOf (c : Char) : Str → Option Nat
  | [] => none
  | x :: rest => if x = c then some 0 else (idxOf c rest).map (· + 1)

/-- The time part of an ISO-8601 string: an optional `±HH:MM[...]` offset is
validated and discarded (`datetime.time()` drops the tzinfo). -/
def parseIsoTime (tstr : Str) : Option PyTime :=
  let tzpos :=
    match idxOf '-' tstr with
    | some i => some i
    | none => idxOf '+' tstr
  match tzpos with
  | none => parseHMS tstr
  | some i =>
    let timestr := tstr.take i
    let tzstr := tstr.drop (i + 1)
    if tzstr.length = 5 ∨ tzstr.length = 8 ∨ tzstr.length = 15 then
      match parseHMS tzstr with
      | some _ => parseHMS timestr
      | none => none
    else none

/-- `datetime.fromisoformat`: ten date characters, then an optional separator
character and a time string. -/
def fromisoformat (s : Str) : Option PyDateTime :=
  match parseIsoDate (s.take 10) with
  | none => none
  | some (y, m, d) =>
    match s.drop 10 with
    | [] => some ⟨y, m, d, ⟨0, 0, 0, 0⟩⟩
    | _ :: tstr =>
      match parseIsoTime tstr with
      | some t => some ⟨y, m, d, t⟩
      | none => none

/-- A raw lead record as `calculate_lead_score` receives it (a CSV row):
the required string fields, the email possibly absent. -/
structure LeadData where
  name : Str
  phone : Str
  email : Option Str
  source : Str
  service_interest : Str
  location : Str
  timestamp : Str
deriving DecidableEq

/-- Scoring configuration: target cities. -/
def TARGET_CITIES : List Str :=
  ["Hyderabad".toList, "Vizag".toList, "Bengaluru".toList]

/-- Scoring configuration: high-intent services. -/
def HIGH_INTENT_SERVICES : List Str :=
  ["Real Estate Marketing".toList, "Lead Generation".toList, "SEO".toList,
    "PPC".toList, "Website Development".toList]

/-- Scoring configuration: high-value sources. -/
def HIGH_VALUE_SOURCES : List Str :=
  ["Google Ads".toList, "Website".toList]

/-- `dt_time(9, 0)`. -/
def time9 : PyTime := ⟨9, 0, 0, 0⟩

/-- `dt_time(18, 0)`. -/
def time18 : PyTime := ⟨18, 0, 0, 0⟩

/-- The business-hours window test `dt_time(9,0) <= t <= dt_time(18,0)`. -/
def inBusinessHours (t : PyTime) : Bool :=
  timeLe time9 t && timeLe t time18

/-- Truthiness of `lead_data.get('email')`: present and non-empty. -/
def pyTruthy : Option Str → Bool
  | none => false
  | some s => s ≠ []

/-- `calculate_lead_score`: the additive rule set, cap at 100, and the
threshold categorisation. -/
def calculate_lead_score (lead_data : LeadData) : Int × Str :=
  let score : Int := 0
  let score := if lead_data.service_interest ∈ HIGH_INTENT_SERVICES then score + 25 else score
  let score := if lead_data.location ∈ TARGET_CITIES then score + 20 else score
  let score := if lead_data.source ∈ HIGH_VALUE_SOURCES then score + 20 else score
  let score :=
    match fromisoformat lead_data.timestamp with
    | some lead_time => if inBusinessHours lead_time.time then score + 15 else score
    | none => score
  let score := if pyTruthy lead_data.email then score + 10 else score
  let score := score + 10
  let score := min score 100
  let category :=
    if score ≥ 70 then "Hot".toList
    else if score ≥ 40 then "Warm".toList
    else "Cold".toList
  (score, category)

/-- The +25 high-intent-service term. -/
def svcBonus (l : LeadData) : Int :=
  if l.service_interest ∈ HIGH_INTENT_SERVICES then 25 else 0

/-- The +20 target-city term. -/
def locBonus (l : LeadData) : Int :=
  if l.location ∈ TARGET_CITIES then 20 else 0

/-- The +20 high-value-source term. -/
def srcBonus (l : LeadData) : Int :=
  if l.source ∈ HIGH_VALUE_SOURCES then 20 else 0

/-- The +15 business-hours term (0 when the timestamp does not parse). -/
def timeBonus (l : LeadData) : Int :=
  match fromisoformat l.timestamp with
  | some lead_time => if inBusinessHours lead_time.time then 15 else 0
  | none => 0

/-- The +10 email-present term. -/
def emailBonus (l : LeadData) : Int :=
  if pyTruthy l.email then 10 else 0

/-- The uncapped sum of all scoring terms plus the +10 base. -/
def rawScore (l : LeadData) : Int :=
  svcBonus l + locBonus l + srcBonus l + timeBonus l + emailBonus l + 10

/-- The threshold rule mapping a score to its category. -/
def scoreCategory (score : Int) : Str :=
  if score ≥ 70 then "Hot".toList
  else if score ≥ 40 then "Warm".toList
  else "Cold".toList

/-- The spec's example row: every bonus condition holds. -/
def exampleLead : LeadData :=
  ⟨"Test".toList, "+1".toList, some "t@e.com".toList, "Website".toList,
    "SEO".toList, "Hyderabad".toList, "2024-12-15T10:30:00".toList⟩

/-- A lead matching none of the bonus conditions (unparseable timestamp,
no email, no recognised service, city or source). -/
def plainLead : LeadData :=
  ⟨"X".toList, "1".toList, none, "Referral".toList, "Other".toList,
    "Delhi".toList, "garbage".toList⟩

/-- A stored lead as the `Lead` pydantic model holds it (`id` and
`created_at` are storage-layer fields the core never reads). -/
structure Lead where
  name : Str
  phone : Str
  email : Option Str
  source : Str
  service_interest : Str
  location : Str
  timestamp : Str
  score : Int
  category : Str
deriving DecidableEq

/-- The three per-lead follow-up messages. -/
structure AIMessages where
  whatsapp : Str
  email : Str
  call_script : Str
deriving DecidableEq

/-- The label `'WHATSAPP:'`. -/
def LBL_W : Str := "WHATSAPP:".toList

/-- The label `'EMAIL:'`. -/
def LBL_E : Str := "EMAIL:".toList

/-- The label `'CALL:'`. -/
def LBL_C : Str := "CALL:".toList

/-- `'\n\n'`, the Tier 1 block separator. -/
def nl2 : Str := "\n\n".toList

/-- `'\n'`, the Tier 2 line separator and join string. -/
def nl1 : Str := "\n".toList

/-- Tier 1, one block: assign the stripped post-label remainder to the field
whose label the stripped block starts with. -/
def tier1Step (acc : Str × Str × Str) (sec : Str) : Str × Str × Str :=
  if startsWithL (pyStrip sec) LBL_W then
    (pyStrip (pyReplace sec LBL_W []), acc.2.1, acc.2.2)
  else if startsWithL (pyStrip sec) LBL_E then
    (acc.1, pyStrip (pyReplace sec LBL_E []), acc.2.2)
  else if startsWithL (pyStrip sec) LBL_C then
    (acc.1, acc.2.1, pyStrip (pyReplace sec LBL_C []))
  else acc

/-- Tier 1: split the reply on blank lines and scan the blocks. -/
def tier1 (response_text : Str) : Str × Str × Str :=
  (pySplit nl2 response_text).foldl tier1Step ([], [], [])

/-- The Tier 2 state machine's current section. -/
inductive SectionTag where
  | whatsapp
  | email
  | call
deriving DecidableEq

/-- The Tier 2 scan state: the three message fields, the active section and
the accumulated lines of the active section. -/
structure T2State where
  w : Str
  e : Str
  c : Str
  cur : Option SectionTag
  content : List Str
deriving DecidableEq

/-- Tier 2, one line, exactly as the Python branches read: a WHATSAPP marker
flushes whichever section is active; an EMAIL marker flushes only an active
whatsapp section; a CALL marker flushes only an active email section; any
other line is appended to the active section's buffer (dropped if none). -/
def tier2Line (st : T2State) (line : Str) : T2State :=
  if containsL line LBL_W then
    let st :=
      if st.cur.isSome ∧ st.content ≠ [] then
        match st.cur with
        | some .whatsapp => { st with w := pyStrip (intercalateL nl1 st.content) }
        | some .email => { st with e := pyStrip (intercalateL nl1 st.content) }
        | some .call => { st with c := pyStrip (intercalateL nl1 st.content) }
        | none => st
      else st
    { st with cur := some .whatsapp, content := [pyStrip (pyReplace line LBL_W [])] }
  else if containsL line LBL_E then
    let st :=
      if st.cur.isSome ∧ st.content ≠ [] then
        match st.cur with
        | some .whatsapp => { st with w := pyStrip (intercalateL nl1 st.content) }
        | _ => st
      else st
    { st with cur := some .email, content := [pyStrip (pyReplace line LBL_E [])] }
  else if containsL line LBL_C then
    let st :=
      if st.cur.isSome ∧ st.content ≠ [] then
        match st.cur with
        | some .email => { st with e := pyStrip (intercalateL nl1 st.content) }
        | _ => st
      else st
    { st with cur := some .call, content := [pyStrip (pyReplace line LBL_C [])] }
  else if st.cur.isSome then
    { st with content := st.content ++ [line] }
  else st

/-- Tier 2 over a list of lines, from the Tier 1 fields: scan, then capture
the last section only when it is the call section. -/
def tier2Lines (init : Str × Str × Str) (lines : List Str) : Str × Str × Str :=
  let st0 : T2State := ⟨init.1, init.2.1, init.2.2, none, []⟩
  let st := lines.foldl tier2Line st0
  let st :=
    if st.cur = some SectionTag.call ∧ st.content ≠ [] then
      { st with c := pyStrip (intercalateL nl1 st.content) }
    else st
  (st.w, st.e, st.c)

/-- Tier 2: re-scan the reply line by line. -/
def tier2 (init : Str × Str × Str) (response_text : Str) : Str × Str × Str :=
  tier2Lines init (pySplit nl1 response_text)

/-- Both parsing tiers: Tier 2 runs only when Tier 1 left a field empty. -/
def parseReply (response_text : Str) : Str × Str × Str :=
  let r := tier1 response_text
  if r.1 = [] ∨ r.2.1 = [] ∨ r.2.2 = [] then tier2 r response_text else r

/-- `whatsapp_msg or <template>`: Python `or` on strings. -/
def pyOr (s t : Str) : Str := if s = [] then t else s

/-- The per-field whatsapp template used when both tiers leave it empty. -/
def tmplWhatsapp (lead : Lead) : Str :=
  "Hi ".toList ++ lead.name ++ "! We saw your interest in ".toList ++
    lead.service_interest ++ ". Let's discuss how we can help you grow!".toList

/-- The per-field email template used when both tiers leave it empty. -/
def tmplEmail (lead : Lead) : Str :=
  "Subject: Your ".toList ++ lead.service_interest ++ " Inquiry\n\nHi ".toList ++
    lead.name ++ ",\n\nThank you for your interest. We'd love to discuss your ".toList ++
    lead.service_interest ++ " needs.".toList

/-- The per-field call-script template used when both tiers leave it empty. -/
def tmplCall (lead : Lead) : Str :=
  "Hi ".toList ++ lead.name ++ ", I'm calling about your interest in ".toList ++
    lead.service_interest ++ ". Is this a good time to chat?".toList

/-- The whatsapp fallback used when the generation call raises. -/
def fbWhatsapp (lead : Lead) : Str :=
  "Hi ".toList ++ lead.name ++ "! We saw your interest in ".toList ++
    lead.service_interest ++ ". Can we schedule a quick call to discuss your needs?".toList

/-- The email fallback used when the generation call raises. -/
def fbEmail (lead : Lead) : Str :=
  "Subject: Your ".toList ++ lead.service_interest ++ " Inquiry\n\nHi ".toList ++
    lead.name ++ ",\n\nThank you for reaching out regarding ".toList ++
    lead.service_interest ++
    ". We'd love to help you achieve your marketing goals in ".toList ++
    lead.location ++ ".\n\nBest regards,\nMarketing Team".toList

/-- The call-script fallback used when the generation call raises. -/
def fbCall (lead : Lead) : Str :=
  "Hi ".toList ++ lead.name ++
    ", this is [Your Name] from [Agency]. I'm calling about your interest in ".toList ++
    lead.service_interest ++ ". Do you have a few minutes to discuss how we can help?".toList

/-- `generate_ai_messages`: the external generation call is modelled by its
outcome, `Except.ok` a reply string or `Except.error` for a raised
exception; the `except` branch of the Python returns the fallback
templates, so no exception escapes. -/
def generate_ai_messages (lead : Lead) (gen : Except Unit Str) : AIMessages :=
  match gen with
  | .ok response_text =>
    let r := parseReply response_text
    { whatsapp := pyOr r.1 (tmplWhatsapp lead)
      email := pyOr r.2.1 (tmplEmail lead)
      call_script := pyOr r.2.2 (tmplCall lead) }
  | .error _ =>
    { whatsapp := fbWhatsapp lead
      email := fbEmail lead
      call_script := fbCall lead }

/-- No occurrence of `sep` begins inside `a`, even one that would run past
the end of `a` into an adjacent copy of `sep`. -/
def sepFree (sep a : Str) : Prop :=
  ∀ i, i < a.length → startsWithL (a.drop i ++ sep) sep = false

instance (sep a : Str) : Decidable (sepFree sep a) :=
  Nat.decidableBallLT a.length fun i _ => startsWithL (a.drop i ++ sep) sep = false

/-- A body of a well-formed labelled block: it contains no label substring,
no blank-line boundary (none straddling into the following separator
either), and non-whitespace text. -/
def goodBody (b : Str) : Prop :=
  containsL b LBL_W = false ∧ containsL b LBL_E = false ∧ containsL b LBL_C = false ∧
  sepFree nl2 b ∧ pyStrip b ≠ []

instance (b : Str) : Decidable (goodBody b) := by
  unfold goodBody
  infer_instance

/-- C6 witness bodies: a one-line, a two-line and a one-line body. -/
def wBody : Str := " Quick note for you".toList

/-- C6 witness email body. -/
def eBody : Str := "\nSubject: SEO\nBody line".toList

/-- C6 witness call body. -/
def cBody : Str := " Warm opening line".toList

/-- The dashboard payload; the source-distribution dict is an
insertion-ordered association list, as Python dicts are. -/
structure DashboardStats where
  total_leads : Nat
  hot_count : Nat
  warm_count : Nat
  cold_count : Nat
  source_distribution : List (Str × Nat)
  best_time_of_day : Str
deriving DecidableEq

/-- `m[k] = m.get(k, 0) + 1` on an insertion-ordered dict: update in place
when present, append otherwise. -/
def dictIncr {α : Type} [DecidableEq α] : List (α × Nat) → α → List (α × Nat)
  | [], k => [(k, 1)]
  | (k0, v) :: rest, k =>
    if k0 = k then (k0, v + 1) :: rest else (k0, v) :: dictIncr rest k

/-- The hour-count dict over the stored leads: unparseable timestamps
contribute nothing. -/
def hour_counts (leads_db : List Lead) : List (Nat × Nat) :=
  leads_db.foldl
    (fun m lead =>
      match fromisoformat lead.timestamp with
      | some lead_time => dictIncr m lead_time.time.hour
      | none => m)
    []

/-- Python `max(hour_counts, key=hour_counts.get)` over a non-empty dict:
fold keeping the current maximum, replaced only on a strictly greater
count, so the first key attaining the maximum wins. -/
def pyMaxKeyByVal (h : Nat × Nat) (t : List (Nat × Nat)) : Nat × Nat :=
  t.foldl (fun best p => if best.2 < p.2 then p else best) h

/-- The five time-of-day bucket labels. -/
def hourBucket (best_hour : Nat) : Str :=
  if 9 ≤ best_hour ∧ best_hour < 12 then "Morning (9 AM - 12 PM)".toList
  else if 12 ≤ best_hour ∧ best_hour < 15 then "Afternoon (12 PM - 3 PM)".toList
  else if 15 ≤ best_hour ∧ best_hour < 18 then "Late Afternoon (3 PM - 6 PM)".toList
  else if 18 ≤ best_hour ∧ best_hour < 21 then "Evening (6 PM - 9 PM)".toList
  else "Off Hours".toList

/-- `get_dashboard_stats` over the in-memory lead store. -/
def get_dashboard_stats (leads_db : List Lead) : DashboardStats :=
  let total_leads := leads_db.length
  let hot_count := (leads_db.filter fun lead => decide (lead.category = "Hot".toList)).length
  let warm_count := (leads_db.filter fun lead => decide (lead.category = "Warm".toList)).length
  let cold_count := (leads_db.filter fun lead => decide (lead.category = "Cold".toList)).length
  let source_distribution := leads_db.foldl (fun m lead => dictIncr m lead.source) []
  let best_time :=
    match hour_counts leads_db with
    | [] => "No data".toList
    | h :: t => hourBucket (pyMaxKeyByVal h t).1
  ⟨total_leads, hot_count, warm_count, cold_count, source_distribution, best_time⟩

/-- A stored lead with the fields the dashboard reads. -/
def storedLead (cat src ts : String) : Lead :=
  ⟨"N".toList, "P".toList, none, src.toList, "SEO".toList, "City".toList,
    ts.toList, 0, cat.toList⟩

/-- A three-lead demo store with one lead of each category. -/
def demoDB : List Lead :=
  [storedLead "Hot" "Website" "2024-12-15T14:00:00",
    storedLead "Warm" "Referral" "2024-12-15T09:00:00",
    storedLead "Cold" "Website" "bad-timestamp"]

/-- Two stored leads whose timestamps fall at 14:00 and 09:00. -/
def tieDB : List Lead :=
  [storedLead "Hot" "Website" "2024-12-15T14:00:00",
    storedLead "Warm" "Website" "2024-11-03T09:15:00"]

/-! ## Lemmas and the claims -/

lemma calculate_lead_score_eq (l : LeadData) :
    calculate_lead_score l = (min (rawScore l) 100, scoreCategory (min (rawScore l) 100)) := by
  unfold calculate_lead_score rawScore svcBonus locBonus srcBonus timeBonus emailBonus scoreCategory
  by_cases h1 : l.service_interest ∈ HIGH_INTENT_SERVICES <;>
    by_cases h2 : l.location ∈ TARGET_CITIES <;>
      by_cases h3 : l.source ∈ HIGH_VALUE_SOURCES <;>
        by_cases h5 : pyTruthy l.email = true <;>
          rcases h4 : fromisoformat l.timestamp with _ | dt <;>
            first
              | (simp [h1, h2, h3, h5, h4] <;> decide)
              | (by_cases h6 : inBusinessHours dt.time = true <;>
                  simp [h1, h2, h3, h5, h4, h6] <;> decide)

lemma timeBonus_nonneg (l : LeadData) : 0 ≤ timeBonus l := by
  rcases h : fromisoformat l.timestamp with _ | dt <;> simp [timeBonus, h] <;>
    split_ifs <;> norm_num

lemma timeBonus_le (l : LeadData) : timeBonus l ≤ 15 := by
  rcases h : fromisoformat l.timestamp with _ | dt <;> simp [timeBonus, h] <;>
    split_ifs <;> norm_num

lemma rawScore_ge_ten (l : LeadData) : 10 ≤ rawScore l := by
  have h1 := timeBonus_nonneg l
  unfold rawScore svcBonus locBonus srcBonus emailBonus
  split_ifs <;> omega

lemma scoreCategory_hot_iff (s : Int) : scoreCategory s = "Hot".toList ↔ 70 ≤ s := by
  have hwh : "Warm".toList ≠ "Hot".toList := by decide
  have hch : "Cold".toList ≠ "Hot".toList := by decide
  unfold scoreCategory
  split_ifs with h1 h2 <;> simp [h1, hwh, hch] <;> omega

lemma scoreCategory_warm_iff (s : Int) : scoreCategory s = "Warm".toList ↔ (40 ≤ s ∧ s < 70) := by
  have hhw : "Hot".toList ≠ "Warm".toList := by decide
  have hcw : "Cold".toList ≠ "Warm".toList := by decide
  unfold scoreCategory
  split_ifs with h1 h2 <;> simp [hhw, hcw] <;> omega

lemma scoreCategory_cold_iff (s : Int) : scoreCategory s = "Cold".toList ↔ s < 40 := by
  have hhc : "Hot".toList ≠ "Cold".toList := by decide
  have hwc : "Warm".toList ≠ "Cold".toList := by decide
  unfold scoreCategory
  split_ifs with h1 h2 <;> simp [hhc, hwc] <;> omega

/-- C2: for every lead input, the score is an integer in [0, 100] and the
category is exactly one of Hot, Warm, Cold, determined by the score alone
through the documented thresholds. -/
theorem scorer_range_and_category (l : LeadData) :
    0 ≤ (calculate_lead_score l).1 ∧ (calculate_lead_score l).1 ≤ 100 ∧
    (calculate_lead_score l).2 = scoreCategory (calculate_lead_score l).1 ∧
    ((calculate_lead_score l).2 = "Hot".toList ↔ 70 ≤ (calculate_lead_score l).1) ∧
    ((calculate_lead_score l).2 = "Warm".toList ↔
      (40 ≤ (calculate_lead_score l).1 ∧ (calculate_lead_score l).1 < 70)) ∧
    ((calculate_lead_score l).2 = "Cold".toList ↔ (calculate_lead_score l).1 < 40) := by
  have hge := rawScore_ge_ten l
  rw [calculate_lead_score_eq]
  dsimp only
  have hmin : (10 : Int) ≤ min (rawScore l) 100 := le_min hge (by norm_num)
  exact ⟨by omega, min_le_right _ _, rfl, scoreCategory_hot_iff _,
    scoreCategory_warm_iff _, scoreCategory_cold_iff _⟩

/-- C10: the +10 base score is unconditional and every other term is
non-negative, so every lead scores at least 10, and the Cold category covers
exactly the reachable scores in [10, 40). -/
theorem score_floor_and_cold_range (l : LeadData) :
    10 ≤ (calculate_lead_score l).1 ∧
    ((calculate_lead_score l).2 = "Cold".toList ↔
      (10 ≤ (calculate_lead_score l).1 ∧ (calculate_lead_score l).1 < 40)) := by
  have hge := rawScore_ge_ten l
  rw [calculate_lead_score_eq]
  dsimp only
  have hmin : (10 : Int) ≤ min (rawScore l) 100 := le_min hge (by norm_num)
  exact ⟨hmin, by rw [scoreCategory_cold_iff]; omega⟩

/-- C5: the +15 business-hours bonus is added exactly when the timestamp
parses and its time-of-day lies in [09:00, 18:00]; on a parse failure the
bonus is silently skipped and the remaining rules still produce a value. -/
theorem time_bonus_exact (l : LeadData) :
    (∀ dt, fromisoformat l.timestamp = some dt →
      (calculate_lead_score l).1 =
        min (svcBonus l + locBonus l + srcBonus l +
          (if inBusinessHours dt.time then 15 else 0) + emailBonus l + 10) 100) ∧
    (fromisoformat l.timestamp = none →
      (calculate_lead_score l).1 =
        min (svcBonus l + locBonus l + srcBonus l + emailBonus l + 10) 100) := by
  constructor
  · intro dt h
    rw [calculate_lead_score_eq]
    dsimp only
    unfold rawScore
    rw [show timeBonus l = if inBusinessHours dt.time then 15 else 0 from by
      simp [timeBonus, h]]
  · intro h
    rw [calculate_lead_score_eq]
    dsimp only
    unfold rawScore
    rw [show timeBonus l = 0 from by simp [timeBonus, h]]
    norm_num

/-- C5 witness: the example row's timestamp parses to 10:30, inside the
window, and the score is the capped sum with the +15 included. -/
theorem time_bonus_exact_witness :
    (calculate_lead_score exampleLead).1 =
      min (svcBonus exampleLead + locBonus exampleLead + srcBonus exampleLead +
        15 + emailBonus exampleLead + 10) 100 := by
  have h := (time_bonus_exact exampleLead).1 ⟨2024, 12, 15, ⟨10, 30, 0, 0⟩⟩ (by decide)
  have hb : inBusinessHours (PyTime.mk 10 30 0 0) = true := by decide
  rw [hb] at h
  simpa using h

/-- C7: a lead meeting all five bonus conditions scores 100 and is Hot. -/
theorem all_bonus_hot (l : LeadData)
    (h1 : l.service_interest ∈ HIGH_INTENT_SERVICES)
    (h2 : l.location ∈ TARGET_CITIES)
    (h3 : l.source ∈ HIGH_VALUE_SOURCES)
    (h4 : ∃ dt, fromisoformat l.timestamp = some dt ∧ inBusinessHours dt.time = true)
    (h5 : ∃ s, l.email = some s ∧ s ≠ []) :
    calculate_lead_score l = (100, "Hot".toList) := by
  obtain ⟨dt, hdt, hbh⟩ := h4
  obtain ⟨s, hs, hne⟩ := h5
  rw [calculate_lead_score_eq]
  have hsvc : svcBonus l = 25 := by simp [svcBonus, h1]
  have hloc : locBonus l = 20 := by simp [locBonus, h2]
  have hsrc : srcBonus l = 20 := by simp [srcBonus, h3]
  have htime : timeBonus l = 15 := by simp [timeBonus, hdt, hbh]
  have hemail : emailBonus l = 10 := by simp [emailBonus, pyTruthy, hs, hne]
  unfold rawScore
  rw [hsvc, hloc, hsrc, htime, hemail]
  decide

/-- C7 witness: the spec's example row scores (100, Hot). -/
theorem all_bonus_hot_witness :
    calculate_lead_score exampleLead = (100, "Hot".toList) :=
  all_bonus_hot exampleLead (by decide) (by decide) (by decide)
    ⟨⟨2024, 12, 15, ⟨10, 30, 0, 0⟩⟩, by decide, by decide⟩
    ⟨"t@e.com".toList, rfl, by decide⟩

/-- C8: a lead meeting none of the five bonus conditions scores 10, Cold. -/
theorem no_bonus_cold (l : LeadData)
    (h1 : l.service_interest ∉ HIGH_INTENT_SERVICES)
    (h2 : l.location ∉ TARGET_CITIES)
    (h3 : l.source ∉ HIGH_VALUE_SOURCES)
    (h4 : fromisoformat l.timestamp = none ∨
      ∀ dt, fromisoformat l.timestamp = some dt → inBusinessHours dt.time = false)
    (h5 : l.email = none ∨ l.email = some []) :
    calculate_lead_score l = (10, "Cold".toList) := by
  rw [calculate_lead_score_eq]
  have hsvc : svcBonus l = 0 := by simp [svcBonus, h1]
  have hloc : locBonus l = 0 := by simp [locBonus, h2]
  have hsrc : srcBonus l = 0 := by simp [srcBonus, h3]
  have htime : timeBonus l = 0 := by
    rcases h4 with h | h
    · simp [timeBonus, h]
    · rcases hdt : fromisoformat l.timestamp with _ | dt
      · simp [timeBonus, hdt]
      · simp [timeBonus, hdt, h dt hdt]
  have hemail : emailBonus l = 0 := by
    rcases h5 with h | h <;> simp [emailBonus, pyTruthy, h]
  unfold rawScore
  rw [hsvc, hloc, hsrc, htime, hemail]
  decide

/-- C8 witness: a lead with no bonus at all scores (10, Cold). -/
theorem no_bonus_cold_witness :
    calculate_lead_score plainLead = (10, "Cold".toList) :=
  no_bonus_cold plainLead (by decide) (by decide) (by decide)
    (Or.inl (by decide)) (Or.inl rfl)

lemma pyOr_ne_nil {s t : Str} (h : t ≠ []) : pyOr s t ≠ [] := by
  unfold pyOr
  split_ifs with hs
  · exact h
  · exact hs

lemma append_left_ne_nil {a b : Str} (h : a ≠ []) : a ++ b ≠ [] := by
  cases a with
  | nil => exact absurd rfl h
  | cons c t => simp

lemma startsWithL_append_self (p x : Str) : startsWithL (p ++ x) p = true := by
  induction p with
  | nil => cases x <;> rfl
  | cons c t ih => simpa [startsWithL] using ih

lemma startsWithL_append_of {x p : Str} (t : Str) (h : startsWithL x p = true) :
    startsWithL (x ++ t) p = true := by
  induction p generalizing x with
  | nil => cases x ++ t <;> rfl
  | cons q ps ih =>
    cases x with
    | nil => exact absurd h (by simp [startsWithL])
    | cons d x' =>
      simp only [startsWithL, Bool.and_eq_true, decide_eq_true_eq] at h
      simpa [startsWithL, h.1] using ih h.2

lemma startsWithL_append_right {x p : Str} (t : Str) (hlen : p.length ≤ x.length) :
    startsWithL (x ++ t) p = startsWithL x p := by
  induction p generalizing x with
  | nil => cases x <;> cases t <;> rfl
  | cons q ps ih =>
    cases x with
    | nil => simp at hlen
    | cons d x' =>
      simp only [List.cons_append, startsWithL, List.append_eq]
      rw [ih (by simpa using hlen)]

lemma startsWithL_cons_ne {c d : Char} (x p : Str) (h : c ≠ d) :
    startsWithL (c :: x) (d :: p) = false := by
  simp [startsWithL, h]

lemma sepFree_cons {sep : Str} {c : Char} {x : Str} :
    sepFree sep (c :: x) ↔
      startsWithL ((c :: x) ++ sep) sep = false ∧ sepFree sep x := by
  constructor
  · intro h
    refine ⟨by simpa using h 0 (by simp), fun i hi => ?_⟩
    simpa using h (i + 1) (by simpa using hi)
  · rintro ⟨h0, h⟩ i hi
    cases i with
    | zero => simpa using h0
    | succ j => simpa using h j (by simpa using hi)

lemma pySplitF_fuel (sep : Str) (f g : Nat) (s : Str) (hf : s.length ≤ f)
    (hg : s.length ≤ g) : pySplitF sep f s = pySplitF sep g s := by
  induction f generalizing s g with
  | zero =>
    have hs : s = [] := by
      cases s with
      | nil => rfl
      | cons c rest => simp at hf
    subst hs
    cases g <;> rfl
  | succ f ih =>
    cases s with
    | nil => cases g <;> rfl
    | cons c rest =>
      cases g with
      | zero => simp at hg
      | succ g2 =>
        show (if sep ≠ [] ∧ startsWithL (c :: rest) sep = true then
            [] :: pySplitF sep f ((c :: rest).drop sep.length)
          else consHead c (pySplitF sep f rest)) = _
        split_ifs with h
        · have hlp : 0 < sep.length := List.length_pos.mpr h.1
          have hd : ((c :: rest).drop sep.length).length ≤ f := by
            simp only [List.length_drop, List.length_cons]
            simp only [List.length_cons] at hf
            omega
          have hd2 : ((c :: rest).drop sep.length).length ≤ g2 := by
            simp only [List.length_drop, List.length_cons]
            simp only [List.length_cons] at hg
            omega
          rw [ih _ _ hd hd2]
          simp [pySplitF, h.1, h.2]
        · have hr : rest.length ≤ f := by
            simp only [List.length_cons] at hf
            omega
          have hr2 : rest.length ≤ g2 := by
            simp only [List.length_cons] at hg
            omega
          rw [ih _ _ hr hr2]
          simp [pySplitF, h]

lemma pySplit_nil (sep : Str) : pySplit sep [] = [[]] := rfl

lemma pySplit_cons_pos {sep : Str} (c : Char) (rest : Str)
    (h : sep ≠ [] ∧ startsWithL (c :: rest) sep = true) :
    pySplit sep (c :: rest) = [] :: pySplit sep ((c :: rest).drop sep.length) := by
  have hlp : 0 < sep.length := List.length_pos.mpr h.1
  show pySplitF sep (rest.length + 1) (c :: rest) = _
  rw [show pySplitF sep (rest.length + 1) (c :: rest) =
      [] :: pySplitF sep rest.length ((c :: rest).drop sep.length) from by
    simp [pySplitF, h.1, h.2]]
  congr 1
  apply pySplitF_fuel
  · simp only [List.length_drop, List.length_cons]
    omega
  · exact Nat.le_refl _

lemma pySplit_cons_neg {sep : Str} (c : Char) (rest : Str)
    (h : startsWithL (c :: rest) sep = false) :
    pySplit sep (c :: rest) = consHead c (pySplit sep rest) := by
  show pySplitF sep (rest.length + 1) (c :: rest) = _
  rw [show pySplitF sep (rest.length + 1) (c :: rest) =
      consHead c (pySplitF sep rest.length rest) from by simp [pySplitF, h]]
  rfl

lemma pySplit_sepFree {sep a : Str} (h : sepFree sep a) : pySplit sep a = [a] := by
  induction a with
  | nil => exact pySplit_nil sep
  | cons c x ih =>
    rcases sepFree_cons.mp h with ⟨h0, h1⟩
    have hng : startsWithL (c :: x) sep = false := by
      simp only [List.cons_append] at h0
      cases hsw : startsWithL (c :: x) sep
      · rfl
      · exact absurd (startsWithL_append_of sep hsw) (by simp [h0])
    rw [pySplit_cons_neg c x hng, ih h1]
    rfl

lemma pySplit_append {sep : Str} (hsep : sep ≠ []) (a b : Str) (ha : sepFree sep a) :
    pySplit sep (a ++ (sep ++ b)) = a :: pySplit sep b := by
  induction a with
  | nil =>
    obtain ⟨d, sep', rfl⟩ : ∃ d sep', sep = d :: sep' := by
      cases sep with
      | nil => exact absurd rfl hsep
      | cons d sep' => exact ⟨d, sep', rfl⟩
    simp only [List.nil_append]
    rw [show (d :: sep') ++ b = d :: (sep' ++ b) from rfl]
    rw [pySplit_cons_pos d (sep' ++ b)
      ⟨hsep, by simpa using startsWithL_append_self (d :: sep') b⟩]
    congr 1
    rw [show d :: (sep' ++ b) = (d :: sep') ++ b from rfl, List.drop_left]
  | cons c a' ih =>
    rcases sepFree_cons.mp ha with ⟨h0, h1⟩
    have hng : startsWithL ((c :: a') ++ (sep ++ b)) sep = false := by
      rw [← List.append_assoc]
      rw [startsWithL_append_right b
        (by simp only [List.length_append, List.length_cons]; omega)]
      exact h0
    rw [List.cons_append]
    rw [pySplit_cons_neg c (a' ++ (sep ++ b)) (by simpa using hng)]
    rw [ih h1]
    rfl

lemma pyReplaceF_fuel (pat rep : Str) (f g : Nat) (s : Str) (hf : s.length ≤ f)
    (hg : s.length ≤ g) : pyReplaceF pat rep f s = pyReplaceF pat rep g s := by
  induction f generalizing s g with
  | zero =>
    have hs : s = [] := by
      cases s with
      | nil => rfl
      | cons c rest => simp at hf
    subst hs
    cases g <;> rfl
  | succ f ih =>
    cases s with
    | nil => cases g <;> rfl
    | cons c rest =>
      cases g with
      | zero => simp at hg
      | succ g2 =>
        show (if pat ≠ [] ∧ startsWithL (c :: rest) pat = true then
            rep ++ pyReplaceF pat rep f ((c :: rest).drop pat.length)
          else c :: pyReplaceF pat rep f rest) = _
        split_ifs with h
        · have hlp : 0 < pat.length := List.length_pos.mpr h.1
          have hd : ((c :: rest).drop pat.length).length ≤ f := by
            simp only [List.length_drop, List.length_cons]
            simp only [List.length_cons] at hf
            omega
          have hd2 : ((c :: rest).drop pat.length).length ≤ g2 := by
            simp only [List.length_drop, List.length_cons]
            simp only [List.length_cons] at hg
            omega
          rw [ih _ _ hd hd2]
          simp [pyReplaceF, h.1, h.2]
        · have hr : rest.length ≤ f := by
            simp only [List.length_cons] at hf
            omega
          have hr2 : rest.length ≤ g2 := by
            simp only [List.length_cons] at hg
            omega
          rw [ih _ _ hr hr2]
          simp [pyReplaceF, h]

lemma pyReplace_nil (pat rep : Str) : pyReplace [] pat rep = [] := rfl

lemma pyReplace_cons_pos {pat : Str} (rep : Str) (c : Char) (rest : Str)
    (h : pat ≠ [] ∧ startsWithL (c :: rest) pat = true) :
    pyReplace (c :: rest) pat rep = rep ++ pyReplace ((c :: rest).drop pat.length) pat rep := by
  have hlp : 0 < pat.length := List.length_pos.mpr h.1
  show pyReplaceF pat rep (rest.length + 1) (c :: rest) = _
  rw [show pyReplaceF pat rep (rest.length + 1) (c :: rest) =
      rep ++ pyReplaceF pat rep rest.length ((c :: rest).drop pat.length) from by
    simp [pyReplaceF, h.1, h.2]]
  congr 1
  apply pyReplaceF_fuel
  · simp only [List.length_drop, List.length_cons]
    omega
  · exact Nat.le_refl _

lemma pyReplace_cons_neg {pat : Str} (rep : Str) (c : Char) (rest : Str)
    (h : startsWithL (c :: rest) pat = false) :
    pyReplace (c :: rest) pat rep = c :: pyReplace rest pat rep := by
  show pyReplaceF pat rep (rest.length + 1) (c :: rest) = _
  rw [show pyReplaceF pat rep (rest.length + 1) (c :: rest) =
      c :: pyReplaceF pat rep rest.length rest from by simp [pyReplaceF, h]]
  rfl

lemma pyReplace_not_contains {pat : Str} (rep : Str) {s : Str}
    (h : containsL s pat = false) : pyReplace s pat rep = s := by
  induction s with
  | nil => exact pyReplace_nil pat rep
  | cons c rest ih =>
    rw [containsL] at h
    simp only [Bool.or_eq_false_iff] at h
    rw [pyReplace_cons_neg rep c rest h.1, ih h.2]

lemma pyReplace_head_match {pat : Str} (hpat : pat ≠ []) (b rep : Str) :
    pyReplace (pat ++ b) pat rep = rep ++ pyReplace b pat rep := by
  obtain ⟨d, pat', rfl⟩ : ∃ d pat', pat = d :: pat' := by
    cases pat with
    | nil => exact absurd rfl hpat
    | cons d pat' => exact ⟨d, pat', rfl⟩
  rw [show (d :: pat') ++ b = d :: (pat' ++ b) from rfl]
  rw [pyReplace_cons_pos rep d (pat' ++ b)
    ⟨hpat, by simpa using startsWithL_append_self (d :: pat') b⟩]
  congr 2
  rw [show d :: (pat' ++ b) = (d :: pat') ++ b from rfl, List.drop_left]

lemma dropWhile_append_cons {p : Char → Bool} (x : Str) (cl : Char) (tl : Str)
    (h : p cl = false) :
    (x ++ cl :: tl).dropWhile p = x.dropWhile p ++ (cl :: tl) := by
  induction x with
  | nil => simp [List.dropWhile_cons, h]
  | cons a x' ih =>
    by_cases hp : p a <;> simp [List.dropWhile_cons, hp, ih]

lemma rstripL_append {L : Str} (b : Str) (cl : Char) (tl : Str)
    (hLr : L.reverse = cl :: tl) (hl : pyIsSpace cl = false) :
    rstripL (L ++ b) = L ++ rstripL b := by
  unfold rstripL
  rw [List.reverse_append, hLr, dropWhile_append_cons b.reverse cl tl hl,
    List.reverse_append]
  congr 1
  rw [show (cl :: tl : Str) = L.reverse from hLr.symm, List.reverse_reverse]

lemma pyStrip_label {L : Str} (b : Str) (c0 : Char) (t0 : Str) (hL : L = c0 :: t0)
    (h0 : pyIsSpace c0 = false) (cl : Char) (tl : Str) (hLr : L.reverse = cl :: tl)
    (hl : pyIsSpace cl = false) :
    pyStrip (L ++ b) = L ++ rstripL b := by
  unfold pyStrip
  have hdw : (L ++ b).dropWhile pyIsSpace = L ++ b := by
    subst hL
    simp [List.dropWhile_cons, h0]
  rw [hdw]
  exact rstripL_append b cl tl hLr hl

/-- C1: for every lead and every outcome of the external text-generation
call (a reply string, however empty or garbled, or a raised exception),
`generate_ai_messages` returns three non-empty fields; being a total
function of the outcome, it propagates no exception. -/
theorem composer_never_empty (lead : Lead) (gen : Except Unit Str) :
    (generate_ai_messages lead gen).whatsapp ≠ [] ∧
    (generate_ai_messages lead gen).email ≠ [] ∧
    (generate_ai_messages lead gen).call_script ≠ [] := by
  cases gen with
  | error e =>
    refine ⟨?_, ?_, ?_⟩ <;>
      simp only [generate_ai_messages, fbWhatsapp, fbEmail, fbCall] <;>
      (repeat' apply append_left_ne_nil) <;> decide
  | ok response_text =>
    refine ⟨?_, ?_, ?_⟩ <;> simp only [generate_ai_messages] <;> apply pyOr_ne_nil <;>
      simp only [tmplWhatsapp, tmplEmail, tmplCall] <;>
      (repeat' apply append_left_ne_nil) <;> decide

lemma pyStrip_LBL_W (b : Str) : pyStrip (LBL_W ++ b) = LBL_W ++ rstripL b :=
  pyStrip_label b 'W' "HATSAPP:".toList (by decide) (by decide)
    ':' "PPASTAHW".toList (by decide) (by decide)

lemma pyStrip_LBL_E (b : Str) : pyStrip (LBL_E ++ b) = LBL_E ++ rstripL b :=
  pyStrip_label b 'E' "MAIL:".toList (by decide) (by decide)
    ':' "LIAME".toList (by decide) (by decide)

lemma pyStrip_LBL_C (b : Str) : pyStrip (LBL_C ++ b) = LBL_C ++ rstripL b :=
  pyStrip_label b 'C' "ALL:".toList (by decide) (by decide)
    ':' "LLAC".toList (by decide) (by decide)

lemma startsWithL_E_W (x : Str) : startsWithL (LBL_E ++ x) LBL_W = false := by
  rw [show LBL_E = 'E' :: "MAIL:".toList from by decide,
    show LBL_W = 'W' :: "HATSAPP:".toList from by decide, List.cons_append]
  exact startsWithL_cons_ne _ _ (by decide)

lemma startsWithL_C_W (x : Str) : startsWithL (LBL_C ++ x) LBL_W = false := by
  rw [show LBL_C = 'C' :: "ALL:".toList from by decide,
    show LBL_W = 'W' :: "HATSAPP:".toList from by decide, List.cons_append]
  exact startsWithL_cons_ne _ _ (by decide)

lemma startsWithL_C_E (x : Str) : startsWithL (LBL_C ++ x) LBL_E = false := by
  rw [show LBL_C = 'C' :: "ALL:".toList from by decide,
    show LBL_E = 'E' :: "MAIL:".toList from by decide, List.cons_append]
  exact startsWithL_cons_ne _ _ (by decide)

lemma strip_replace_label {L : Str} (hL : L ≠ []) {b : Str}
    (hb : containsL b L = false) :
    pyStrip (pyReplace (L ++ b) L []) = pyStrip b := by
  rw [pyReplace_head_match hL b [], pyReplace_not_contains [] hb, List.nil_append]

lemma tier1Step_W (acc : Str × Str × Str) (b : Str) (hb : containsL b LBL_W = false) :
    tier1Step acc (LBL_W ++ b) = (pyStrip b, acc.2.1, acc.2.2) := by
  unfold tier1Step
  rw [pyStrip_LBL_W b, if_pos (startsWithL_append_self LBL_W (rstripL b)),
    strip_replace_label (by decide) hb]

lemma tier1Step_E (acc : Str × Str × Str) (b : Str) (hb : containsL b LBL_E = false) :
    tier1Step acc (LBL_E ++ b) = (acc.1, pyStrip b, acc.2.2) := by
  unfold tier1Step
  rw [pyStrip_LBL_E b, if_neg (by simp [startsWithL_E_W]),
    if_pos (startsWithL_append_self LBL_E (rstripL b)),
    strip_replace_label (by decide) hb]

lemma tier1Step_C (acc : Str × Str × Str) (b : Str) (hb : containsL b LBL_C = false) :
    tier1Step acc (LBL_C ++ b) = (acc.1, acc.2.1, pyStrip b) := by
  unfold tier1Step
  rw [pyStrip_LBL_C b, if_neg (by simp [startsWithL_C_W]),
    if_neg (by simp [startsWithL_C_E]),
    if_pos (startsWithL_append_self LBL_C (rstripL b)),
    strip_replace_label (by decide) hb]

lemma sepFree_nl2_label (L b : Str) (hL : ∀ ch ∈ L, ch ≠ '\n')
    (hb : sepFree nl2 b) : sepFree nl2 (L ++ b) := by
  induction L with
  | nil => simpa using hb
  | cons c t ih =>
    have hc : c ≠ '\n' := hL c (by simp)
    rw [List.cons_append, sepFree_cons]
    refine ⟨?_, ih fun ch hch => hL ch (by simp [hch])⟩
    rw [show nl2 = '\n' :: ['\n'] from by decide, List.cons_append]
    exact startsWithL_cons_ne _ _ hc

lemma pySplit_three {B1 B2 B3 : Str} (h1 : sepFree nl2 B1) (h2 : sepFree nl2 B2)
    (h3 : sepFree nl2 B3) :
    pySplit nl2 (intercalateL nl2 [B1, B2, B3]) = [B1, B2, B3] := by
  have hne : nl2 ≠ [] := by decide
  simp only [intercalateL]
  rw [List.append_assoc, pySplit_append hne _ _ h1, List.append_assoc,
    pySplit_append hne _ _ h2, pySplit_sepFree h3]

lemma perm_two {α : Type} {x y : α} {l : List α} (h : l.Perm [x, y]) :
    l = [x, y] ∨ l = [y, x] := by
  have hlen : l.length = 2 := by simpa using h.length_eq
  obtain ⟨a, b, rfl⟩ : ∃ a b, l = [a, b] := by
    cases l with
    | nil => simp at hlen
    | cons a t =>
      cases t with
      | nil => simp at hlen
      | cons b t2 =>
        cases t2 with
        | nil => exact ⟨a, b, rfl⟩
        | cons c t3 => simp at hlen
  have ha : a ∈ [x, y] := h.subset (by simp)
  rcases (by simpa using ha : a = x ∨ a = y) with rfl | rfl
  · left
    have h2 := (List.perm_cons a).mp h
    rw [List.perm_singleton.mp h2]
  · right
    have h2 := (List.perm_cons a).mp (h.trans (List.Perm.swap a x []))
    rw [List.perm_singleton.mp h2]

lemma perm_three {α : Type} {x y z : α} {l : List α} (h : l.Perm [x, y, z]) :
    l = [x, y, z] ∨ l = [x, z, y] ∨ l = [y, x, z] ∨ l = [y, z, x] ∨
      l = [z, x, y] ∨ l = [z, y, x] := by
  have hlen : l.length = 3 := by simpa using h.length_eq
  obtain ⟨a, b, c, rfl⟩ : ∃ a b c, l = [a, b, c] := by
    cases l with
    | nil => simp at hlen
    | cons a t =>
      cases t with
      | nil => simp at hlen
      | cons b t2 =>
        cases t2 with
        | nil => simp at hlen
        | cons c t3 =>
          cases t3 with
          | nil => exact ⟨a, b, c, rfl⟩
          | cons d t4 => simp at hlen
  have ha : a ∈ [x, y, z] := h.subset (by simp)
  rcases (by simpa using ha : a = x ∨ a = y ∨ a = z) with rfl | rfl | rfl
  · have h2 := (List.perm_cons a).mp h
    rcases perm_two h2 with h3 | h3 <;> rw [h3] <;> simp
  · have h2 := (List.perm_cons a).mp (h.trans (List.Perm.swap a x [z]))
    rcases perm_two h2 with h3 | h3 <;> rw [h3] <;> simp
  · have h2 := (List.perm_cons a).mp
      (h.trans (((List.Perm.swap a y []).cons x).trans (List.Perm.swap a x [y])))
    rcases perm_two h2 with h3 | h3 <;> rw [h3] <;> simp

lemma foldl_three {α : Type} (f : (Str × Str × Str) → α → (Str × Str × Str))
    (init : Str × Str × Str) (a b c : α) :
    List.foldl f init [a, b, c] = f (f (f init a) b) c := rfl

/-- C6: on a reply made of three blank-line-separated blocks, each starting
with a distinct one of the three labels (in any order) and carrying
label-free non-empty text, Tier 1 extracts all three bodies (stripped), and
since no field is left empty Tier 2 is not entered. -/
theorem tier1_roundtrip (w e c : Str) (bs : List Str)
    (hperm : bs.Perm [LBL_W ++ w, LBL_E ++ e, LBL_C ++ c])
    (hw : goodBody w) (he : goodBody e) (hc : goodBody c) :
    tier1 (intercalateL nl2 bs) = (pyStrip w, pyStrip e, pyStrip c) ∧
    pyStrip w ≠ [] ∧ pyStrip e ≠ [] ∧ pyStrip c ≠ [] ∧
    parseReply (intercalateL nl2 bs) = (pyStrip w, pyStrip e, pyStrip c) := by
  obtain ⟨hwW, hwE, hwC, hwS, hwNE⟩ := hw
  obtain ⟨heW, heE, heC, heS, heNE⟩ := he
  obtain ⟨hcW, hcE, hcC, hcS, hcNE⟩ := hc
  have hBW : sepFree nl2 (LBL_W ++ w) := sepFree_nl2_label _ _ (by decide) hwS
  have hBE : sepFree nl2 (LBL_E ++ e) := sepFree_nl2_label _ _ (by decide) heS
  have hBC : sepFree nl2 (LBL_C ++ c) := sepFree_nl2_label _ _ (by decide) hcS
  have htier1 : tier1 (intercalateL nl2 bs) = (pyStrip w, pyStrip e, pyStrip c) := by
    rcases perm_three hperm with h | h | h | h | h | h <;> rw [h] <;> unfold tier1
    · rw [pySplit_three hBW hBE hBC, foldl_three,
        tier1Step_W _ _ hwW, tier1Step_E _ _ heE, tier1Step_C _ _ hcC]
    · rw [pySplit_three hBW hBC hBE, foldl_three,
        tier1Step_W _ _ hwW, tier1Step_C _ _ hcC, tier1Step_E _ _ heE]
    · rw [pySplit_three hBE hBW hBC, foldl_three,
        tier1Step_E _ _ heE, tier1Step_W _ _ hwW, tier1Step_C _ _ hcC]
    · rw [pySplit_three hBE hBC hBW, foldl_three,
        tier1Step_E _ _ heE, tier1Step_C _ _ hcC, tier1Step_W _ _ hwW]
    · rw [pySplit_three hBC hBW hBE, foldl_three,
        tier1Step_C _ _ hcC, tier1Step_W _ _ hwW, tier1Step_E _ _ heE]
    · rw [pySplit_three hBC hBE hBW, foldl_three,
        tier1Step_C _ _ hcC, tier1Step_E _ _ heE, tier1Step_W _ _ hwW]
  refine ⟨htier1, hwNE, heNE, hcNE, ?_⟩
  unfold parseReply
  rw [htier1]
  rw [if_neg]
  intro hor
  rcases hor with h | h | h
  · exact hwNE h
  · exact heNE h
  · exact hcNE h

/-- C6 witness: a concrete well-formed reply (labels in E, W, C order) from
which Tier 1 recovers all three bodies verbatim up to stripping. -/
theorem tier1_roundtrip_witness :
    tier1 (intercalateL nl2 [LBL_E ++ eBody, LBL_W ++ wBody, LBL_C ++ cBody]) =
      (pyStrip wBody, pyStrip eBody, pyStrip cBody) ∧
    pyStrip wBody ≠ [] ∧ pyStrip eBody ≠ [] ∧ pyStrip cBody ≠ [] ∧
    parseReply (intercalateL nl2 [LBL_E ++ eBody, LBL_W ++ wBody, LBL_C ++ cBody]) =
      (pyStrip wBody, pyStrip eBody, pyStrip cBody) :=
  tier1_roundtrip wBody eBody cBody _
    (by decide) (by decide) (by decide) (by decide)

lemma tier2Line_call (st : T2State) (m : Str)
    (h1 : containsL m LBL_W = false) (h2 : containsL m LBL_E = false)
    (h3 : containsL m LBL_C = true) :
    ∃ e2, tier2Line st m =
      ⟨st.w, e2, st.c, some SectionTag.call, [pyStrip (pyReplace m LBL_C [])]⟩ := by
  unfold tier2Line
  rw [h1, h2, h3]
  simp only [Bool.false_eq_true, if_false, if_true]
  split_ifs with hg
  · rcases hcur : st.cur with _ | sec
    · exact ⟨st.e, by simp [hcur]⟩
    · cases sec
      · exact ⟨st.e, by simp [hcur]⟩
      · exact ⟨pyStrip (intercalateL nl1 st.content), by simp [hcur]⟩
      · exact ⟨st.e, by simp [hcur]⟩
  · exact ⟨st.e, rfl⟩

lemma tier2Line_content (st : T2State) (l : Str) (sec : SectionTag)
    (hcur : st.cur = some sec)
    (h1 : containsL l LBL_W = false) (h2 : containsL l LBL_E = false)
    (h3 : containsL l LBL_C = false) :
    tier2Line st l = { st with content := st.content ++ [l] } := by
  unfold tier2Line
  rw [h1, h2, h3]
  simp [hcur]

lemma tier2_fold_content (cs : List Str) (st : T2State) (sec : SectionTag)
    (hcur : st.cur = some sec)
    (hcs : ∀ l ∈ cs, containsL l LBL_W = false ∧ containsL l LBL_E = false ∧
      containsL l LBL_C = false) :
    cs.foldl tier2Line st = { st with content := st.content ++ cs } := by
  induction cs generalizing st with
  | nil => simp
  | cons l cs' ih =>
    rw [List.foldl_cons,
      tier2Line_content st l sec hcur (hcs l (by simp)).1 (hcs l (by simp)).2.1
        (hcs l (by simp)).2.2]
    have h2 := ih ⟨st.w, st.e, st.c, st.cur, st.content ++ [l]⟩ hcur
      (fun l2 hl2 => hcs l2 (by simp [hl2]))
    rw [show ({ st with content := st.content ++ [l] } : T2State) =
        ⟨st.w, st.e, st.c, st.cur, st.content ++ [l]⟩ from rfl, h2]
    simp

/-- C3 amended: at end of input only an active call section is flushed.
When the CALL marker is the last marker of the reply, the stripped
post-marker text of the marker line followed by all later lines is joined
and assigned to the call field, whatever lines preceded the marker. -/
theorem tier2_call_flush_at_end (init : Str × Str × Str) (pre : List Str)
    (m : Str) (cs : List Str)
    (hm1 : containsL m LBL_W = false) (hm2 : containsL m LBL_E = false)
    (hm3 : containsL m LBL_C = true)
    (hcs : ∀ l ∈ cs, containsL l LBL_W = false ∧ containsL l LBL_E = false ∧
      containsL l LBL_C = false) :
    (tier2Lines init (pre ++ m :: cs)).2.2 =
      pyStrip (intercalateL nl1 (pyStrip (pyReplace m LBL_C []) :: cs)) := by
  unfold tier2Lines
  dsimp only
  rw [List.foldl_append, List.foldl_cons]
  obtain ⟨e2, hline⟩ :=
    tier2Line_call (List.foldl tier2Line ⟨init.1, init.2.1, init.2.2, none, []⟩ pre)
      m hm1 hm2 hm3
  rw [hline, tier2_fold_content cs _ SectionTag.call rfl hcs]
  rw [if_pos ⟨rfl, by simp⟩]
  simp

/-- C3 amended witness: a WHATSAPP block precedes; CALL is the last marker
and its two accumulated lines are flushed into the call field at end of
input. -/
theorem tier2_call_flush_at_end_witness :
    (tier2Lines ([], [], [])
        ["WHATSAPP: hi there".toList, "CALL: ring ring".toList, "second line".toList]).2.2 =
      pyStrip (intercalateL nl1
        (pyStrip (pyReplace "CALL: ring ring".toList LBL_C []) :: ["second line".toList])) :=
  tier2_call_flush_at_end ([], [], []) ["WHATSAPP: hi there".toList]
    "CALL: ring ring".toList ["second line".toList]
    (by decide) (by decide) (by decide) (by decide)

/-- C3 counterexample: in `"WHATSAPP:\nhello"` the last (and only) marker is
WHATSAPP and the line `hello` is accumulated after it, yet at end of input
the buffer is discarded — the whatsapp field stays empty instead of
receiving the accumulated text `hello`: only the call section is flushed. -/
theorem tier2_whatsapp_last_not_flushed :
    (tier2 ([], [], []) "WHATSAPP:\nhello".toList).1 = [] ∧
    pyStrip (intercalateL nl1 [pyStrip (pyReplace "WHATSAPP:".toList LBL_W []),
      "hello".toList]) = "hello".toList ∧
    ([] : Str) ≠ "hello".toList :=
  ⟨by decide, by decide, by decide⟩

lemma filter_three_sum (db : List Lead)
    (h : ∀ lead ∈ db, lead.category = "Hot".toList ∨ lead.category = "Warm".toList ∨
      lead.category = "Cold".toList) :
    (db.filter fun lead => decide (lead.category = "Hot".toList)).length +
      (db.filter fun lead => decide (lead.category = "Warm".toList)).length +
      (db.filter fun lead => decide (lead.category = "Cold".toList)).length = db.length := by
  induction db with
  | nil => simp
  | cons hd tl ih =>
    have ihs := ih fun lead hl => h lead (by simp [hl])
    simp only [List.filter_cons, List.length_cons]
    rcases h hd (by simp) with hcat | hcat | hcat
    · rw [hcat,
        if_pos (show decide (("Hot".toList : Str) = "Hot".toList) = true from by decide),
        if_neg (show ¬decide (("Hot".toList : Str) = "Warm".toList) = true from by decide),
        if_neg (show ¬decide (("Hot".toList : Str) = "Cold".toList) = true from by decide)]
      simp only [List.length_cons]
      omega
    · rw [hcat,
        if_neg (show ¬decide (("Warm".toList : Str) = "Hot".toList) = true from by decide),
        if_pos (show decide (("Warm".toList : Str) = "Warm".toList) = true from by decide),
        if_neg (show ¬decide (("Warm".toList : Str) = "Cold".toList) = true from by decide)]
      simp only [List.length_cons]
      omega
    · rw [hcat,
        if_neg (show ¬decide (("Cold".toList : Str) = "Hot".toList) = true from by decide),
        if_neg (show ¬decide (("Cold".toList : Str) = "Warm".toList) = true from by decide),
        if_pos (show decide (("Cold".toList : Str) = "Cold".toList) = true from by decide)]
      simp only [List.length_cons]
      omega

/-- C9: over any store whose leads carry one of the three categories, the
three dashboard category counts sum to the total lead count. -/
theorem dashboard_counts_sum (db : List Lead)
    (h : ∀ lead ∈ db, lead.category = "Hot".toList ∨ lead.category = "Warm".toList ∨
      lead.category = "Cold".toList) :
    (get_dashboard_stats db).hot_count + (get_dashboard_stats db).warm_count +
      (get_dashboard_stats db).cold_count = (get_dashboard_stats db).total_leads :=
  filter_three_sum db h

/-- C9 witness: on the three-lead demo store, 1 + 1 + 1 = 3. -/
theorem dashboard_counts_sum_witness :
    (get_dashboard_stats demoDB).hot_count + (get_dashboard_stats demoDB).warm_count +
      (get_dashboard_stats demoDB).cold_count = (get_dashboard_stats demoDB).total_leads :=
  dashboard_counts_sum demoDB (by decide)

lemma get_cons_zeroL {α : Type} {a : α} {l : List α} {h : 0 < (a :: l).length} :
    (a :: l).get ⟨0, h⟩ = a := rfl

lemma get_cons_succL {α : Type} {a : α} {l : List α} {j : Nat}
    {h : j + 1 < (a :: l).length} :
    (a :: l).get ⟨j + 1, h⟩ = l.get ⟨j, by simpa using h⟩ := rfl

lemma pyMax_first (h : Nat × Nat) (t : List (Nat × Nat)) :
    ∃ i, ∃ hi : i < (h :: t).length,
      pyMaxKeyByVal h t = (h :: t).get ⟨i, hi⟩ ∧
      (∀ j, ∀ hj : j < (h :: t).length,
        ((h :: t).get ⟨j, hj⟩).2 ≤ (pyMaxKeyByVal h t).2) ∧
      (∀ j, ∀ hj : j < (h :: t).length, j < i →
        ((h :: t).get ⟨j, hj⟩).2 < (pyMaxKeyByVal h t).2) := by
  induction t generalizing h with
  | nil =>
    refine ⟨0, by simp, rfl, ?_, ?_⟩
    · intro j hj
      have hj0 : j = 0 := by
        simp only [List.length_cons, List.length_nil] at hj
        omega
      subst hj0
      rw [get_cons_zeroL]
      exact Nat.le_refl _
    · intro j hj hji
      omega
  | cons p t2 ih =>
    by_cases hc : h.2 < p.2
    · obtain ⟨i, hi, heq, hub, hfirst⟩ := ih p
      have hres : pyMaxKeyByVal h (p :: t2) = pyMaxKeyByVal p t2 := by
        show pyMaxKeyByVal (if h.2 < p.2 then p else h) t2 = _
        rw [if_pos hc]
      have hple : p.2 ≤ (pyMaxKeyByVal p t2).2 := by
        have h0 := hub 0 (by simp)
        rw [get_cons_zeroL] at h0
        exact h0
      refine ⟨i + 1, by simpa using hi, ?_, ?_, ?_⟩
      · rw [hres, get_cons_succL]
        exact heq
      · intro j hj
        rw [hres]
        cases j with
        | zero =>
          rw [get_cons_zeroL]
          omega
        | succ j2 =>
          rw [get_cons_succL]
          exact hub j2 (by simp only [List.length_cons] at hj ⊢; omega)
      · intro j hj hji
        rw [hres]
        cases j with
        | zero =>
          rw [get_cons_zeroL]
          omega
        | succ j2 =>
          rw [get_cons_succL]
          exact hfirst j2 (by simp only [List.length_cons] at hj ⊢; omega) (by omega)
    · obtain ⟨i, hi, heq, hub, hfirst⟩ := ih h
      have hres : pyMaxKeyByVal h (p :: t2) = pyMaxKeyByVal h t2 := by
        show pyMaxKeyByVal (if h.2 < p.2 then p else h) t2 = _
        rw [if_neg hc]
      have hhle : h.2 ≤ (pyMaxKeyByVal h t2).2 := by
        have h0 := hub 0 (by simp)
        rw [get_cons_zeroL] at h0
        exact h0
      cases i with
      | zero =>
        have heq0 : pyMaxKeyByVal h t2 = h := by
          rw [get_cons_zeroL] at heq
          exact heq
        refine ⟨0, by simp, ?_, ?_, ?_⟩
        · rw [hres, get_cons_zeroL]
          exact heq0
        · intro j hj
          rw [hres]
          cases j with
          | zero =>
            rw [get_cons_zeroL]
            exact hhle
          | succ j2 =>
            rw [get_cons_succL]
            cases j2 with
            | zero =>
              rw [get_cons_zeroL]
              omega
            | succ j3 =>
              rw [get_cons_succL]
              have hb : j3 + 1 < (h :: t2).length := by
                simp only [List.length_cons] at hj ⊢
                omega
              have h3 := hub (j3 + 1) hb
              rw [get_cons_succL] at h3
              exact h3
        · intro j hj hji
          omega
      | succ i2 =>
        have hstrict0 : h.2 < (pyMaxKeyByVal h t2).2 := by
          have h0 := hfirst 0 (by simp) (by omega)
          rw [get_cons_zeroL] at h0
          exact h0
        have hpleh : p.2 ≤ h.2 := by omega
        refine ⟨i2 + 2, by simp only [List.length_cons] at hi ⊢; omega, ?_, ?_, ?_⟩
        · rw [hres, get_cons_succL, get_cons_succL]
          rw [get_cons_succL] at heq
          exact heq
        · intro j hj
          rw [hres]
          cases j with
          | zero =>
            rw [get_cons_zeroL]
            exact hhle
          | succ j2 =>
            rw [get_cons_succL]
            cases j2 with
            | zero =>
              rw [get_cons_zeroL]
              omega
            | succ j3 =>
              rw [get_cons_succL]
              have hb : j3 + 1 < (h :: t2).length := by
                simp only [List.length_cons] at hj ⊢
                omega
              have h3 := hub (j3 + 1) hb
              rw [get_cons_succL] at h3
              exact h3
        · intro j hj hji
          rw [hres]
          cases j with
          | zero =>
            rw [get_cons_zeroL]
            exact hstrict0
          | succ j2 =>
            rw [get_cons_succL]
            cases j2 with
            | zero =>
              rw [get_cons_zeroL]
              omega
            | succ j3 =>
              rw [get_cons_succL]
              have hb : j3 + 1 < (h :: t2).length := by
                simp only [List.length_cons] at hj ⊢
                omega
              have h3 := hfirst (j3 + 1) hb (by omega)
              rw [get_cons_succL] at h3
              exact h3

/-- C4 amended: when hours tie for the highest count, the dashboard picks
the first hour attaining the maximum in the hour-count dict's insertion
order (first-encountered among the leads), not the lowest hour value; the
reported label is that hour's bucket. -/
theorem dashboard_best_hour_first_max (db : List Lead) (h : Nat × Nat)
    (t : List (Nat × Nat)) (hh : hour_counts db = h :: t) :
    ∃ i, ∃ hi : i < (h :: t).length,
      (get_dashboard_stats db).best_time_of_day =
        hourBucket (((h :: t).get ⟨i, hi⟩).1) ∧
      (∀ j, ∀ hj : j < (h :: t).length,
        ((h :: t).get ⟨j, hj⟩).2 ≤ ((h :: t).get ⟨i, hi⟩).2) ∧
      (∀ j, ∀ hj : j < (h :: t).length, j < i →
        ((h :: t).get ⟨j, hj⟩).2 < ((h :: t).get ⟨i, hi⟩).2) := by
  obtain ⟨i, hi, heq, hub, hfirst⟩ := pyMax_first h t
  have hbt : (get_dashboard_stats db).best_time_of_day =
      hourBucket (pyMaxKeyByVal h t).1 := by
    show (match hour_counts db with
      | [] => "No data".toList
      | h :: t => hourBucket (pyMaxKeyByVal h t).1) = _
    rw [hh]
  refine ⟨i, hi, by rw [hbt, heq], fun j hj => ?_, fun j hj hji => ?_⟩
  · rw [← heq]
    exact hub j hj
  · rw [← heq]
    exact hfirst j hj hji

/-- C4 counterexample: hours 14 and 9 each occur once; the lowest tied hour
is 9, whose bucket is Morning, but the dashboard reports hour 14's bucket,
Afternoon, because Python max keeps the first-encountered maximum in dict
insertion order. -/
theorem dashboard_tiebreak_cex :
    hour_counts tieDB = [(14, 1), (9, 1)] ∧
    (get_dashboard_stats tieDB).best_time_of_day = "Afternoon (12 PM - 3 PM)".toList ∧
    hourBucket 9 = "Morning (9 AM - 12 PM)".toList ∧
    "Afternoon (12 PM - 3 PM)".toList ≠ "Morning (9 AM - 12 PM)".toList :=
  ⟨by decide, by decide, by decide, by decide⟩

/-- C4 amended witness: on the tied store the chosen entry is index 0,
hour 14, count 1, and every entry's count is at most 1. -/
theorem dashboard_best_hour_first_max_witness :
    ∃ i, ∃ hi : i < ([(14, 1), (9, 1)] : List (Nat × Nat)).length,
      (get_dashboard_stats tieDB).best_time_of_day =
        hourBucket ((([(14, 1), (9, 1)] : List (Nat × Nat)).get ⟨i, hi⟩).1) ∧
      (∀ j, ∀ hj : j < ([(14, 1), (9, 1)] : List (Nat × Nat)).length,
        ((([(14, 1), (9, 1)] : List (Nat × Nat)).get ⟨j, hj⟩).2 ≤
          (([(14, 1), (9, 1)] : List (Nat × Nat)).get ⟨i, hi⟩).2)) ∧
      (∀ j, ∀ hj : j < ([(14, 1), (9, 1)] : List (Nat × Nat)).length, j < i →
        ((([(14, 1), (9, 1)] : List (Nat × Nat)).get ⟨j, hj⟩).2 <
          (([(14, 1), (9, 1)] : List (Nat × Nat)).get ⟨i, hi⟩).2)) :=
  dashboard_best_hour_first_max tieDB (14, 1) [(9, 1)] (by decide)

end LeadEngine
